import Mathlib

/-!
# Verification of the sharded in-memory TTL cache (package `mem`)

Shallow embedding of the sharded, TTL-expiring in-memory cache engine:
the FNV hash router (`fnv32`), the 32-shard cache with its public
operations (`Put`, `Add`, `Get`, `Pull`, `Has`, `Forever`, `Forget`,
`Increment`, `Decrement`, `Flush`) and the janitor's sweep tick.

Modelling conventions:
* A shard's Go map `map[string]item` becomes a function
  `String → Option Item`; insertion and deletion are pointwise updates.
* The whole cache is a function from shard index (`Fin 32`) to shard map.
* Go's dynamically typed `any` value becomes the closed variant `Value`;
  Go's `nil` interface value (what `Get` yields on a miss, since the map
  read returns the zero `item`) is the constructor `Value.vnil`.
* Timestamps are Unix nanoseconds as `Nat` (every expiration the program
  creates is `0`, meaning "never expires", or `now + seconds·10⁹ > 0`);
  the field is named `expiresAt` for Go's `item.Expiration`.
* Counter values use `Int` for Go's `int`.
* `time.Now()` becomes an explicit `now : Nat` argument to the
  time-dependent operations.
* Errors become `Option CacheErr`; `none` is Go's `nil` error.
-/

/-- Dynamically typed cache value, a closed variant standing for Go `any`.
`vnil` is the nil interface value. -/
inductive Value where
  | vint : Int → Value
  | vstr : String → Value
  | vbool : Bool → Value
  | vnil : Value
deriving DecidableEq, Repr

/-- A cached entry: Go's `item{value any; Expiration int64}`.
`expiresAt = 0` means "never expires". -/
structure Item where
  value : Value
  expiresAt : Nat
deriving DecidableEq, Repr

/-- One shard's `items` map. -/
def ShardMap : Type := String → Option Item

/-- Number of shards: Go's `cacheGroupCount = 32`. -/
def cacheGroupCount : Nat := 32

/-- The sharded cache: Go's `Cache []*cache`, a fixed sequence of 32 shards. -/
def Cache : Type := Fin cacheGroupCount → ShardMap

/-- Errors the counter operations can return. `undefinedKey` embeds
`errors.New("Undefined key: " + key)`; `invalidType` embeds the
type-assertion failure errors of `Increment` and `Decrement`. -/
inductive CacheErr where
  | undefinedKey : String → CacheErr
  | invalidType : CacheErr
deriving DecidableEq, Repr

/-- UTF-8 encoding of one character, as the list of its byte values;
Go strings are byte sequences and `fnv32` consumes them byte by byte. -/
def utf8Bytes (c : Char) : List Nat :=
  let n := c.toNat
  if n < 128 then [n]
  else if n < 2048 then [192 + n / 64, 128 + n % 64]
  else if n < 65536 then [224 + n / 4096, 128 + (n / 64) % 64, 128 + n % 64]
  else [240 + n / 262144, 128 + (n / 4096) % 64, 128 + (n / 64) % 64, 128 + n % 64]

/-- The UTF-8 bytes of a string (Go's `key[i]` iteration space). -/
def strBytes (s : String) : List Nat :=
  s.data.flatMap utf8Bytes

/-- One step of the hash loop: `hash *= prime32; hash ^= key[i]`,
with the 32-bit multiplication overflow made explicit. -/
def fnv32Step (hash b : Nat) : Nat :=
  (hash * 16777619 % 4294967296) ^^^ b

/-- Embedding of `fnv32`: offset basis `2166136261`, prime `16777619`,
byte-at-a-time multiply-then-xor over the key's bytes. -/
def fnv32 (key : String) : Nat :=
  (strBytes key).foldl fnv32Step 2166136261

theorem fnv32Step_lt (hash b : Nat) (hb : b < 256) : fnv32Step hash b < 4294967296 := by
  have hm : hash * 16777619 % 4294967296 < 4294967296 := Nat.mod_lt _ (by norm_num)
  calc fnv32Step hash b
      < 2 ^ 32 := Nat.xor_lt_two_pow (n := 32) hm (lt_of_lt_of_le hb (by norm_num))
    _ = 4294967296 := by norm_num

/-- The shard index of a key: Go's `uint(fnv32(key)) % uint(cacheGroupCount)`
inside `getGroup`. -/
def shardIndex (key : String) : Fin cacheGroupCount :=
  ⟨fnv32 key % cacheGroupCount, Nat.mod_lt _ (by decide)⟩

/-- `getGroup`: the shard map owning a key. -/
def Cache.getGroup (c : Cache) (key : String) : ShardMap :=
  c (shardIndex key)

/-- Go map store `m[k] = it`. -/
def mapInsert (m : ShardMap) (k : String) (it : Item) : ShardMap :=
  fun k2 => if k2 = k then some it else m k2

/-- Go map `delete(m, k)`. -/
def mapDelete (m : ShardMap) (k : String) : ShardMap :=
  fun k2 => if k2 = k then none else m k2

/-- Replace one shard of the cache, leaving the others untouched. -/
def updateShard (c : Cache) (i : Fin cacheGroupCount) (m : ShardMap) : Cache :=
  fun j => if j = i then m else c j

/-- Expiration computed by `Put`/`Add`: `0` when `seconds == 0`, else
`time.Now().Add(seconds * time.Second).UnixNano()`. -/
def expiryOf (now seconds : Nat) : Nat :=
  if seconds > 0 then now + seconds * 1000000000 else 0

/-- Embedding of `Cache.Put`: unconditionally insert/overwrite; never fails. -/
def Cache.Put (c : Cache) (now : Nat) (key : String) (value : Value)
    (seconds : Nat) : Cache × Option CacheErr :=
  let idx := shardIndex key
  (updateShard c idx (mapInsert (c idx) key ⟨value, expiryOf now seconds⟩), none)

/-- Embedding of `Cache.Add`: insert only when the key is absent from the
shard's map; otherwise leave the cache untouched; never fails. -/
def Cache.Add (c : Cache) (now : Nat) (key : String) (value : Value)
    (seconds : Nat) : Cache × Option CacheErr :=
  let idx := shardIndex key
  match c idx key with
  | some _ => (c, none)
  | none =>
      (updateShard c idx (mapInsert (c idx) key ⟨value, expiryOf now seconds⟩), none)

/-- Embedding of `Cache.Get`: `i, _ := group.items[key]; return i.value, nil`.
A missing key yields the zero `item`, whose value is the nil interface. -/
def Cache.Get (c : Cache) (key : String) : Value × Option CacheErr :=
  match c.getGroup key key with
  | some it => (it.value, none)
  | none => (Value.vnil, none)

/-- Embedding of `Cache.Has`: membership test on the shard's map. -/
def Cache.Has (c : Cache) (key : String) : Bool :=
  (c.getGroup key key).isSome

/-- Embedding of `Cache.Forever`: store `item{value: value}`, i.e. with
expiration `0`; never fails. -/
def Cache.Forever (c : Cache) (key : String) (value : Value) :
    Cache × Option CacheErr :=
  let idx := shardIndex key
  (updateShard c idx (mapInsert (c idx) key ⟨value, 0⟩), none)

/-- Embedding of `Cache.Forget`: delete the key, return `true, nil`. -/
def Cache.Forget (c : Cache) (key : String) : Cache × Bool × Option CacheErr :=
  let idx := shardIndex key
  (updateShard c idx (mapDelete (c idx) key), true, none)

/-- Embedding of `Cache.Pull`: `Get`, propagate its error, then `Forget`,
propagate its error, then return the value read. -/
def Cache.Pull (c : Cache) (key : String) : Cache × Value × Option CacheErr :=
  match c.Get key with
  | (_, some e) => (c, Value.vnil, some e)
  | (value, none) =>
      match c.Forget key with
      | (c2, _, some e) => (c2, Value.vnil, some e)
      | (c2, _, none) => (c2, value, none)

/-- Embedding of `Cache.Increment`: absent key is created holding `n` with
no expiration; a stored `int` is replaced by its sum with `n`, keeping the
rest of the entry; any other stored value is a type error. -/
def Cache.Increment (c : Cache) (key : String) (n : Int) :
    Cache × Int × Option CacheErr :=
  let idx := shardIndex key
  match c idx key with
  | none => (updateShard c idx (mapInsert (c idx) key ⟨Value.vint n, 0⟩), n, none)
  | some v =>
      match v.value with
      | Value.vint nv =>
          (updateShard c idx (mapInsert (c idx) key ⟨Value.vint (nv + n), v.expiresAt⟩),
            nv + n, none)
      | _ => (c, 0, some CacheErr.invalidType)

/-- Embedding of `Cache.Decrement`: absent key is an error (returning `n`
alongside it, as the Go code does); a stored `int` is replaced by its
difference with `n`; any other stored value is a type error. -/
def Cache.Decrement (c : Cache) (key : String) (n : Int) :
    Cache × Int × Option CacheErr :=
  let idx := shardIndex key
  match c idx key with
  | none => (c, n, some (CacheErr.undefinedKey key))
  | some v =>
      match v.value with
      | Value.vint nv =>
          (updateShard c idx (mapInsert (c idx) key ⟨Value.vint (nv - n), v.expiresAt⟩),
            nv - n, none)
      | _ => (c, 0, some CacheErr.invalidType)

/-- Embedding of `Cache.Flush`: clear every shard's map; never fails. -/
def Cache.Flush (_c : Cache) : Cache × Option CacheErr :=
  ((fun _ _ => none), none)

/-- One janitor tick over one shard, taken at time `now`: delete every
entry with `v.Expiration > 0 && now > v.Expiration`, keep the rest. -/
def sweepShard (now : Nat) (m : ShardMap) : ShardMap :=
  fun k =>
    match m k with
    | some v => if v.expiresAt > 0 ∧ now > v.expiresAt then none else some v
    | none => none

/-- The empty cache (every shard's map fresh), as `Init` builds it. -/
def emptyCache : Cache := fun _ _ => none

/-! ## Basic lemmas about shard and map updates -/

theorem mapInsert_self (m : ShardMap) (k : String) (it : Item) :
    mapInsert m k it k = some it := by
  simp [mapInsert]

theorem mapDelete_self (m : ShardMap) (k : String) :
    mapDelete m k k = none := by
  simp [mapDelete]

theorem updateShard_self (c : Cache) (i : Fin cacheGroupCount) (m : ShardMap) :
    updateShard c i m i = m := by
  simp [updateShard]

theorem getGroup_updateShard_self (c : Cache) (key : String) (m : ShardMap) :
    (updateShard c (shardIndex key) m).getGroup key = m := by
  simp [Cache.getGroup, updateShard]

/-! ## Claim theorems -/

/-- C1: `Get` returns the stored value whenever the key is physically
present in the owning shard's map — whatever the entry's expiration — and
returns the absent marker (nil) when the key is not in the map; it never
inspects `expiresAt` and never returns an error. -/
theorem get_spec (c : Cache) (key : String) :
    (c.Get key).2 = none ∧
    (∀ it : Item, c.getGroup key key = some it → (c.Get key).1 = it.value) ∧
    (c.getGroup key key = none → (c.Get key).1 = Value.vnil) := by
  refine ⟨?_, ?_, ?_⟩
  · rcases h : c.getGroup key key with _ | it <;> simp [Cache.Get, h]
  · intro it h
    simp [Cache.Get, h]
  · intro h
    simp [Cache.Get, h]

theorem get_spec_witness :
    (((emptyCache.Put 0 "b" (Value.vint 1) 10).1.Get "b").1 =
        (Item.mk (Value.vint 1) 10000000000).value) ∧
    ((emptyCache.Get "b").1 = Value.vnil) :=
  ⟨(get_spec (emptyCache.Put 0 "b" (Value.vint 1) 10).1 "b").2.1
      ⟨Value.vint 1, 10000000000⟩ (by decide),
    (get_spec emptyCache "b").2.2 (by decide)⟩

/-- The hash-and-reduce routing written out from the spec's description, to
be compared against the embedded `fnv32`-based `shardIndex`: offset basis
`2166136261`, prime `16777619`, one byte at a time multiply-then-xor with
32-bit truncation, the result reduced modulo the shard count. -/
def specHashIndex (key : String) : Nat :=
  ((strBytes key).foldl (fun h b => (h * 16777619 % 2 ^ 32) ^^^ b) 2166136261) %
    cacheGroupCount

/-- C4: `shardIndex` is deterministic, lands in `[0, 32)`, and equals the
spec's byte-at-a-time multiply-then-xor hash reduced modulo 32. -/
theorem shardIndex_spec (key : String) :
    (shardIndex key).val < 32 ∧ shardIndex key = shardIndex key ∧
      (shardIndex key).val = specHashIndex key :=
  ⟨(shardIndex key).isLt, rfl, rfl⟩

/-- C7: a sweep tick at time `now` deletes exactly the entries whose
expiration is nonzero and strictly less than `now`, and keeps every other
entry (never-expiring entries with expiration `0` included) unchanged. -/
theorem sweepShard_spec (now : Nat) (m : ShardMap) (k : String) :
    sweepShard now m k =
      match m k with
      | some it => if it.expiresAt ≠ 0 ∧ it.expiresAt < now then none else some it
      | none => none := by
  rcases h : m k with _ | it
  · simp [sweepShard, h]
  · simp only [sweepShard, h]
    rcases Nat.eq_zero_or_pos it.expiresAt with h0 | h0
    · simp [h0]
    · simp [Nat.pos_iff_ne_zero.mp h0, h0]

/-- C8: `Flush` empties every shard's map, never fails, and afterwards every
`Get` returns the absent marker. -/
theorem flush_spec (c : Cache) (key : String) (i : Fin cacheGroupCount) :
    (c.Flush.2 = none) ∧ (c.Flush.1 i key = none) ∧
      ((c.Flush.1.Get key).1 = Value.vnil) :=
  ⟨rfl, rfl, rfl⟩

/-- C9: `Forever key value` produces exactly the state `Put key value 0`
produces, whatever the current time: an unconditional overwrite with a
never-expiring entry, and no error. -/
theorem forever_eq_put_zero (c : Cache) (now : Nat) (key : String) (value : Value) :
    c.Forever key value = c.Put now key value 0 ∧
      (c.Forever key value).2 = none :=
  ⟨rfl, rfl⟩

/-- C2: `Increment` on an absent key inserts the amount with no expiration
and returns it; on a stored integer it stores and returns the sum;
`Decrement` on a stored integer stores and returns the difference; and on a
fresh key the sequence increment 1, increment 10, decrement 2 returns
1, 11, 9. -/
theorem increment_decrement_spec (c : Cache) (key : String) (n : Int) :
    (c.getGroup key key = none →
      ((c.Increment key n).2.1 = n ∧ (c.Increment key n).2.2 = none ∧
        (c.Increment key n).1.getGroup key key = some ⟨Value.vint n, 0⟩)) ∧
    (∀ (v : Int) (e : Nat), c.getGroup key key = some ⟨Value.vint v, e⟩ →
      ((c.Increment key n).2.1 = v + n ∧ (c.Increment key n).2.2 = none ∧
        (c.Increment key n).1.getGroup key key = some ⟨Value.vint (v + n), e⟩)) ∧
    (∀ (v : Int) (e : Nat), c.getGroup key key = some ⟨Value.vint v, e⟩ →
      ((c.Decrement key n).2.1 = v - n ∧ (c.Decrement key n).2.2 = none ∧
        (c.Decrement key n).1.getGroup key key = some ⟨Value.vint (v - n), e⟩)) ∧
    ((emptyCache.Increment "e" 1).2.1 = 1 ∧
      ((emptyCache.Increment "e" 1).1.Increment "e" 10).2.1 = 11 ∧
      (((emptyCache.Increment "e" 1).1.Increment "e" 10).1.Decrement "e" 2).2.1 = 9) := by
  refine ⟨?_, ?_, ?_, by decide⟩
  · intro h
    simp only [Cache.getGroup] at h
    simp [Cache.Increment, Cache.getGroup, updateShard, mapInsert, h]
  · intro v e h
    simp only [Cache.getGroup] at h
    simp [Cache.Increment, Cache.getGroup, updateShard, mapInsert, h]
  · intro v e h
    simp only [Cache.getGroup] at h
    simp [Cache.Decrement, Cache.getGroup, updateShard, mapInsert, h]

theorem increment_decrement_spec_witness :
    ((emptyCache.Increment "q" 7).2.1 = 7 ∧ (emptyCache.Increment "q" 7).2.2 = none ∧
      (emptyCache.Increment "q" 7).1.getGroup "q" "q" = some ⟨Value.vint 7, 0⟩) ∧
    (((emptyCache.Put 0 "k" (Value.vint 5) 3).1.Increment "k" 2).2.1 = 5 + 2 ∧
      ((emptyCache.Put 0 "k" (Value.vint 5) 3).1.Increment "k" 2).2.2 = none ∧
      ((emptyCache.Put 0 "k" (Value.vint 5) 3).1.Increment "k" 2).1.getGroup "k" "k" =
        some ⟨Value.vint (5 + 2), 3000000000⟩) ∧
    (((emptyCache.Put 0 "k" (Value.vint 5) 3).1.Decrement "k" 2).2.1 = 5 - 2 ∧
      ((emptyCache.Put 0 "k" (Value.vint 5) 3).1.Decrement "k" 2).2.2 = none ∧
      ((emptyCache.Put 0 "k" (Value.vint 5) 3).1.Decrement "k" 2).1.getGroup "k" "k" =
        some ⟨Value.vint (5 - 2), 3000000000⟩) :=
  ⟨(increment_decrement_spec emptyCache "q" 7).1 (by decide),
    (increment_decrement_spec (emptyCache.Put 0 "k" (Value.vint 5) 3).1 "k" 2).2.1
      5 3000000000 (by decide),
    (increment_decrement_spec (emptyCache.Put 0 "k" (Value.vint 5) 3).1 "k" 2).2.2.1
      5 3000000000 (by decide)⟩

/-- C3: `Decrement` reports the missing-key error exactly when the key has
no entry in its shard's map; both counters report the type error exactly
when the entry present holds a non-integer value; and no other error can
come out of either counter. -/
theorem counter_errors_spec (c : Cache) (key : String) (n : Int) :
    ((c.Decrement key n).2.2 = some (CacheErr.undefinedKey key) ↔
      c.getGroup key key = none) ∧
    ((c.Increment key n).2.2 = some CacheErr.invalidType ↔
      ∃ it, c.getGroup key key = some it ∧ ∀ m : Int, it.value ≠ Value.vint m) ∧
    ((c.Decrement key n).2.2 = some CacheErr.invalidType ↔
      ∃ it, c.getGroup key key = some it ∧ ∀ m : Int, it.value ≠ Value.vint m) ∧
    ((c.Increment key n).2.2 = none ∨
      (c.Increment key n).2.2 = some CacheErr.invalidType) ∧
    ((c.Decrement key n).2.2 = none ∨
      (c.Decrement key n).2.2 = some (CacheErr.undefinedKey key) ∨
      (c.Decrement key n).2.2 = some CacheErr.invalidType) := by
  rcases h : c.getGroup key key with _ | ⟨v, e⟩ <;>
    simp only [Cache.getGroup] at h
  · simp [Cache.Increment, Cache.Decrement, Cache.getGroup, h]
  · rcases v with m | s | b | _ <;>
      simp [Cache.Increment, Cache.Decrement, Cache.getGroup, h]

/-- C5: `Add` inserts exactly when the key is absent from its shard's map
at call time (the inserted entry carrying the computed expiration), is a
complete no-op when the key is present — expired or not — never fails, and
put 1 / add 2 / get on the same key yields 1. -/
theorem add_spec (c : Cache) (now : Nat) (key : String) (value : Value)
    (seconds : Nat) :
    (∀ it, c.getGroup key key = some it → (c.Add now key value seconds).1 = c) ∧
    (c.getGroup key key = none →
      (c.Add now key value seconds).1.getGroup key key =
        some ⟨value, expiryOf now seconds⟩) ∧
    ((c.Add now key value seconds).2 = none) ∧
    (∀ now2 now3,
      (((emptyCache.Put now2 "b" (Value.vint 1) 10).1.Add
          now3 "b" (Value.vint 2) 10).1.Get "b").1 = Value.vint 1) := by
  refine ⟨?_, ?_, ?_, ?_⟩
  · intro it h
    simp only [Cache.getGroup] at h
    simp [Cache.Add, h]
  · intro h
    simp only [Cache.getGroup] at h
    simp [Cache.Add, Cache.getGroup, updateShard, mapInsert, h]
  · rcases h : c.getGroup key key with _ | it <;>
      simp only [Cache.getGroup] at h <;>
      simp [Cache.Add, h]
  · intro now2 now3
    simp [Cache.Put, Cache.Add, Cache.Get, Cache.getGroup, updateShard, mapInsert]

theorem add_spec_witness :
    (((emptyCache.Put 0 "b" (Value.vint 1) 10).1.Add 0 "b" (Value.vint 2) 10).1 =
      (emptyCache.Put 0 "b" (Value.vint 1) 10).1) ∧
    ((emptyCache.Add 7 "c" (Value.vstr "x") 2).1.getGroup "c" "c" =
      some ⟨Value.vstr "x", expiryOf 7 2⟩) :=
  ⟨(add_spec (emptyCache.Put 0 "b" (Value.vint 1) 10).1 0 "b" (Value.vint 2) 10).1
      ⟨Value.vint 1, 10000000000⟩ (by decide),
    (add_spec emptyCache 7 "c" (Value.vstr "x") 2).2.1 (by decide)⟩

/-- C6: `Pull` returns exactly what `Get` returns at that moment, leaves the
cache as `Forget` leaves it — the entry gone, so a following `Get` yields
the absent marker — and never fails; after putting 1 under a key, pulling
it returns 1 and a subsequent get returns absent. -/
theorem pull_spec (c : Cache) (key : String) :
    (c.Pull key).2.1 = (c.Get key).1 ∧
    (c.Pull key).1 = (c.Forget key).1 ∧
    (c.Pull key).1.getGroup key key = none ∧
    ((c.Pull key).1.Get key).1 = Value.vnil ∧
    (c.Pull key).2.2 = none ∧
    (∀ now, ((emptyCache.Put now "b" (Value.vint 1) 10).1.Pull "b").2.1 = Value.vint 1 ∧
      ((((emptyCache.Put now "b" (Value.vint 1) 10).1.Pull "b").1.Get "b").1 =
        Value.vnil)) := by
  have hP : c.Pull key = ((c.Forget key).1, (c.Get key).1, none) := by
    rcases hg : c.getGroup key key with _ | it <;>
      simp [Cache.Pull, Cache.Get, Cache.Forget, hg]
  have hF : (c.Forget key).1.getGroup key key = none := by
    simp [Cache.Forget, Cache.getGroup, updateShard, mapDelete]
  refine ⟨by rw [hP], by rw [hP], by rw [hP]; exact hF, ?_, by rw [hP], ?_⟩
  · rw [hP]
    simp [Cache.Get, hF]
  · intro now
    constructor <;>
      simp [Cache.Pull, Cache.Put, Cache.Get, Cache.Forget, Cache.getGroup,
        updateShard, mapInsert, mapDelete]

/-- C10: a successful `Increment` or `Decrement` on an entry holding an
integer changes only the value; the entry's expiration stays exactly what
it was, so counter updates never touch an existing TTL. -/
theorem counter_preserves_expiry (c : Cache) (key : String) (n v : Int) (T : Nat)
    (h : c.getGroup key key = some ⟨Value.vint v, T⟩) :
    (c.Increment key n).1.getGroup key key = some ⟨Value.vint (v + n), T⟩ ∧
    (c.Decrement key n).1.getGroup key key = some ⟨Value.vint (v - n), T⟩ := by
  simp only [Cache.getGroup] at h
  constructor <;>
    simp [Cache.Increment, Cache.Decrement, Cache.getGroup, updateShard,
      mapInsert, h]

theorem counter_preserves_expiry_witness :
    ((emptyCache.Put 0 "k" (Value.vint 5) 3).1.Increment "k" 2).1.getGroup "k" "k" =
        some ⟨Value.vint (5 + 2), 3000000000⟩ ∧
      ((emptyCache.Put 0 "k" (Value.vint 5) 3).1.Decrement "k" 2).1.getGroup "k" "k" =
        some ⟨Value.vint (5 - 2), 3000000000⟩ :=
  counter_preserves_expiry (emptyCache.Put 0 "k" (Value.vint 5) 3).1 "k" 2 5
    3000000000 (by decide)
